import Mathlib

/-!
Shallow embedding of `src/deepsparse/timing/pipeline_timer.py`.

Modelling conventions:
* A Python `dict` keyed by stage name is an insertion-ordered association
  list `List (String × α)`: assignment to a fresh key appends at the end,
  assignment to an existing key replaces its value in place, and lookup
  returns the first (unique, for states reachable in Python) binding.
* `time.perf_counter()` returns a float; each call site receives the
  sampled timestamp as an explicit `ℚ` argument (exact arithmetic stands
  in for IEEE floats; every claim here is structural or algebraic).
* A Python method that can `raise` returns `Except String α`; the message
  strings abbreviate the `ValueError` / `KeyError` / `ZeroDivisionError`
  texts. Raising `start` / `stop` performs no mutation before the raise in
  the source, so an `.error` result stands for "state unchanged".
* `set`-based iteration order (in `PipelineTimer.stages`) is unspecified
  in Python; the model fixes first-seen order, and no claim depends on
  the order, only on the key-to-value mapping.
-/

/-- Lookup in an insertion-ordered dict: first binding of the key. -/
def dictGet {α : Type} : List (String × α) → String → Option α
  | [], _ => none
  | (k, v) :: rest, s => if k = s then some v else dictGet rest s

/-- Assignment `d[k] = v` in an insertion-ordered dict: replace the first
binding in place, or append a new binding at the end. -/
def dictSet {α : Type} : List (String × α) → String → α → List (String × α)
  | [], s, v => [(s, v)]
  | (k, w) :: rest, s, v =>
      if k = s then (s, v) :: rest else (k, w) :: dictSet rest s v

/-- The keys of a dict, in insertion order. -/
def dictKeys {α : Type} (d : List (String × α)) : List String := d.map (·.1)

/-- `True`/`False` as a `Bool`: whether an `Except` value is a success. -/
def exOk {α : Type} : Except String α → Bool
  | .ok _ => true
  | .error _ => false

/-- `fmap`-style sequencing used to translate Python dict comprehensions
that may raise: evaluate `f` on each element left to right, propagating
the first error. -/
def mapME {α : Type} (f : String → Except String α) :
    List String → Except String (List α)
  | [] => .ok []
  | s :: rest => do
      let a ← f s
      let r ← mapME f rest
      .ok (a :: r)

/-- Left fold threading an `Except`, used to translate Python `for` loops
whose body may raise. -/
def foldME {α β : Type} (f : β → α → Except String β) :
    β → List α → Except String β
  | b, [] => .ok b
  | b, a :: rest => do
      let b' ← f b a
      foldME f b' rest

/-- The per-sample durations `stop[i] - start[i]` (source lines 94-97;
evaluated only after the lengths have been checked equal). -/
def rawDeltas (starts stops : List ℚ) : List ℚ :=
  List.zipWith (fun b a => b - a) stops starts

/-- `class InferenceTimer` (source lines 22-102): two dicts from stage
name to the list of recorded start / stop timestamps. -/
structure InferenceTimer where
  staged_start_times : List (String × List ℚ)
  staged_stop_times : List (String × List ℚ)
deriving DecidableEq, Repr

namespace InferenceTimer

/-- `__init__` (source lines 23-25). -/
def new : InferenceTimer := ⟨[], []⟩

/-- `stages` property (source lines 30-32). -/
def stages (tm : InferenceTimer) : List String := dictKeys tm.staged_start_times

/-- `clear` (source lines 42-44). -/
def clear (_tm : InferenceTimer) : InferenceTimer := ⟨[], []⟩

/-- `has_stage` (source lines 46-47). -/
def has_stage (tm : InferenceTimer) (stage : String) : Bool :=
  tm.stages.contains stage

/-- `start(stage)` (source lines 49-61), with the freshly sampled
`time.perf_counter()` value passed in as `t`. -/
def start (tm : InferenceTimer) (t : ℚ) (stage : String) :
    Except String InferenceTimer :=
  let fresh := (dictGet tm.staged_start_times stage).isNone
  let starts := if fresh then dictSet tm.staged_start_times stage [] else
    tm.staged_start_times
  let stops := if fresh then dictSet tm.staged_stop_times stage [] else
    tm.staged_stop_times
  match dictGet starts stage, dictGet stops stage with
  | some l1, some l2 =>
      if l1.length ≠ l2.length then
        .error "ValueError: attempting to start stage before a previous has been stopped"
      else
        .ok ⟨dictSet starts stage (l1 ++ [t]), stops⟩
  | _, _ => .error "KeyError"

/-- `stop(stage)` (source lines 63-79), with the freshly sampled
`time.perf_counter()` value passed in as `t`. -/
def stop (tm : InferenceTimer) (t : ℚ) (stage : String) :
    Except String InferenceTimer :=
  match dictGet tm.staged_start_times stage with
  | none => .error "ValueError: attempting to stop a stage that has not been started"
  | some l1 =>
      match dictGet tm.staged_stop_times stage with
      | none => .error "KeyError"
      | some l2 =>
          if l1.length ≠ l2.length + 1 then
            .error "ValueError: attempting to stop stage before a previous has been started"
          else
            .ok ⟨tm.staged_start_times, dictSet tm.staged_stop_times stage (l2 ++ [t])⟩

/-- `stage_times(stage)` (source lines 81-97). -/
def stage_times (tm : InferenceTimer) (stage : String) :
    Except String (List ℚ) :=
  match dictGet tm.staged_start_times stage with
  | none => .error "ValueError: attempting to get time deltas for a stage that has not been started"
  | some l1 =>
      match dictGet tm.staged_stop_times stage with
      | none => .error "KeyError"
      | some l2 =>
          if l1.length ≠ l2.length then
            .error "ValueError: attempting to get time deltas for a stage that has not been stopped"
          else
            .ok (rawDeltas l1 l2)

/-- `stage_average_time(stage)` (source lines 99-102); `sum(times) /
len(times)` raises `ZeroDivisionError` on an empty list in Python. -/
def stage_average_time (tm : InferenceTimer) (stage : String) :
    Except String ℚ := do
  let times ← tm.stage_times stage
  if times.length = 0 then .error "ZeroDivisionError"
  else .ok (times.sum / (times.length : ℚ))

/-- `times` property (source lines 34-36): dict comprehension over
`stages`. -/
def times (tm : InferenceTimer) : Except String (List (String × ℚ)) :=
  mapME (fun stage => do
    let a ← tm.stage_average_time stage
    .ok (stage, a)) tm.stages

/-- `all_times` property (source lines 38-40): dict comprehension over
`stages`. -/
def all_times (tm : InferenceTimer) : Except String (List (String × List ℚ)) :=
  mapME (fun stage => do
    let ts ← tm.stage_times stage
    .ok (stage, ts)) tm.stages

end InferenceTimer

/-- `class PipelineTimer` (source lines 105-193). -/
structure PipelineTimer where
  multi_inference : Bool
  enabled : Bool
  timers : List InferenceTimer
deriving DecidableEq, Repr

namespace PipelineTimer

/-- `__init__(enabled=True, multi_inference=False)` (source lines 106-109). -/
def new (enabled : Bool := true) (multi_inference : Bool := false) :
    PipelineTimer :=
  ⟨multi_inference, enabled, []⟩

/-- `current_inference` property (source lines 130-132): the last tracked
timer, or `None` when none exists. -/
def current_inference (pt : PipelineTimer) : Option InferenceTimer :=
  pt.timers.getLast?

/-- `inferences` property (source lines 134-136). -/
def inferences (pt : PipelineTimer) : List InferenceTimer := pt.timers

/-- `stages.update(timer.stages)` for one stage name: add it unless
already present (source line 143; Python's set union). -/
def addStage (a : List String) (s : String) : List String :=
  if a.contains s then a else a ++ [s]

/-- `stages` property (source lines 138-145): the union of every tracked
timer's stages.  Python builds a `set` and lists it in unspecified order;
the model fixes first-seen order. -/
def stages (pt : PipelineTimer) : List String :=
  pt.timers.foldl (fun acc tm => tm.stages.foldl addStage acc) []

/-- Body of the inner loop of the `all_times` property (source line 162):
`all_times[stage].extend(times)` — a missing key would be a `KeyError`. -/
def extendEntry (a : List (String × List ℚ)) (p : String × List ℚ) :
    Except String (List (String × List ℚ)) :=
  match dictGet a p.1 with
  | none => .error "KeyError"
  | some cur => .ok (dictSet a p.1 (cur ++ p.2))

/-- Body of the outer loop of the `all_times` property (source lines
160-162): extend the accumulator with every stage of one timer. -/
def mergeTimer (acc : List (String × List ℚ)) (tm : InferenceTimer) :
    Except String (List (String × List ℚ)) := do
  let tt ← tm.all_times
  foldME extendEntry acc tt

/-- `all_times` property (source lines 156-164): start from
`\x7bstage: [] for stage in self.stages\x7d`, then for every timer extend
each of its stages with that timer's raw samples. -/
def all_times (pt : PipelineTimer) : Except String (List (String × List ℚ)) :=
  foldME mergeTimer (pt.stages.map (fun s => (s, ([] : List ℚ)))) pt.timers

/-- `times` property (source lines 147-154): `sum(all_times[stage]) /
len(all_times[stage])` per stage (division by an empty list raises
`ZeroDivisionError` in Python). -/
def times (pt : PipelineTimer) : Except String (List (String × ℚ)) := do
  let a ← pt.all_times
  mapME
    (fun stage =>
      match dictGet a stage with
      | none => .error "KeyError"
      | some l =>
          if l.length = 0 then .error "ZeroDivisionError"
          else .ok (stage, l.sum / (l.length : ℚ)))
    pt.stages

/-- `_check_start_inference` (source lines 191-193): append a fresh timer
when none is tracked yet (an `InferenceTimer` object is always truthy). -/
def check_start_inference (pt : PipelineTimer) : PipelineTimer :=
  if pt.current_inference.isNone then
    { pt with timers := pt.timers ++ [InferenceTimer.new] }
  else pt

/-- `reset` (source lines 166-175): no-op when disabled; otherwise ensure
a current timer exists, then append a fresh timer (multi-inference) or
clear `self._timers[0]` in place (single-inference). -/
def reset (pt : PipelineTimer) : PipelineTimer :=
  if !pt.enabled then pt
  else
    let pt := pt.check_start_inference
    if pt.multi_inference then
      { pt with timers := pt.timers ++ [InferenceTimer.new] }
    else
      { pt with
          timers :=
            match pt.timers with
            | [] => []
            | t :: rest => t.clear :: rest }

/-- `start_inference_stage(stage)` (source lines 177-182):
`self._timers[-1].start(stage)` after the existence check. -/
def start_inference_stage (pt : PipelineTimer) (t : ℚ) (stage : String) :
    Except String PipelineTimer :=
  if !pt.enabled then .ok pt
  else
    let pt := pt.check_start_inference
    match pt.timers.getLast? with
    | none => .error "IndexError"
    | some tm => do
        let tm' ← tm.start t stage
        .ok { pt with timers := pt.timers.dropLast ++ [tm'] }

/-- `stop_inference_stage(stage)` (source lines 184-189):
`self._timers[-1].stop(stage)` after the existence check. -/
def stop_inference_stage (pt : PipelineTimer) (t : ℚ) (stage : String) :
    Except String PipelineTimer :=
  if !pt.enabled then .ok pt
  else
    let pt := pt.check_start_inference
    match pt.timers.getLast? with
    | none => .error "IndexError"
    | some tm => do
        let tm' ← tm.stop t stage
        .ok { pt with timers := pt.timers.dropLast ++ [tm'] }

end PipelineTimer

/-! ### Dictionary lemmas -/

theorem dictGet_dictSet_self {α : Type} (d : List (String × α)) (k : String)
    (v : α) : dictGet (dictSet d k v) k = some v := by
  induction d with
  | nil => simp [dictGet, dictSet]
  | cons p rest ih =>
      obtain ⟨k', w⟩ := p
      by_cases h : k' = k
      · simp [dictGet, dictSet, h]
      · simp [dictGet, dictSet, h, ih]

theorem dictGet_dictSet_ne {α : Type} (d : List (String × α)) {k s : String}
    (v : α) (h : k ≠ s) : dictGet (dictSet d k v) s = dictGet d s := by
  induction d with
  | nil => simp [dictGet, dictSet, h]
  | cons p rest ih =>
      obtain ⟨k', w⟩ := p
      by_cases hk : k' = k
      · subst hk
        simp [dictGet, dictSet, h]
      · simp [dictGet, dictSet, hk, ih]

theorem dictGet_isSome_iff_mem {α : Type} (d : List (String × α))
    (k : String) : (dictGet d k).isSome ↔ k ∈ dictKeys d := by
  induction d with
  | nil => simp [dictGet, dictKeys]
  | cons p rest ih =>
      obtain ⟨k', w⟩ := p
      by_cases h : k' = k
      · simp [dictGet, dictKeys, h]
      · simp [dictGet, dictKeys, h, ih, Ne.symm h]

theorem mem_keys_exists_entry {α : Type} (d : List (String × α)) (k : String)
    (h : k ∈ dictKeys d) : ∃ v, dictGet d k = some v ∧ (k, v) ∈ d := by
  induction d with
  | nil => simp [dictKeys] at h
  | cons p rest ih =>
      obtain ⟨k', w⟩ := p
      by_cases hk : k' = k
      · subst hk
        exact ⟨w, by simp [dictGet], by simp⟩
      · have hmem : k ∈ dictKeys rest := by
          simpa [dictKeys, hk, Ne.symm hk] using h
        obtain ⟨v, hget, hentry⟩ := ih hmem
        exact ⟨v, by simp [dictGet, hk, hget], by simp [hentry]⟩

theorem dictKeys_dictSet_mem {α : Type} (d : List (String × α)) {k : String}
    (v : α) (h : k ∈ dictKeys d) : dictKeys (dictSet d k v) = dictKeys d := by
  induction d with
  | nil => simp [dictKeys] at h
  | cons p rest ih =>
      obtain ⟨k', w⟩ := p
      by_cases hk : k' = k
      · subst hk
        simp [dictSet, dictKeys]
      · have hmem : k ∈ dictKeys rest := by
          simpa [dictKeys, hk, Ne.symm hk] using h
        have h2 := ih hmem
        simp only [dictKeys] at h2 ⊢
        simp [dictSet, hk, h2]

/-! ### C1: aggregation merges raw samples before averaging -/

/-- Every stage of the timer is balanced: its stop-times list exists and
has the same length as its start-times list. -/
def InferenceTimer.balanced (tm : InferenceTimer) : Bool :=
  tm.staged_start_times.all (fun p =>
    match dictGet tm.staged_stop_times p.1 with
    | some l2 => p.2.length == l2.length
    | none => false)

/-- Every stage of the timer has at least one recorded start (true of
every state reachable in Python, where creating a stage key immediately
appends a timestamp). -/
def InferenceTimer.hasSamples (tm : InferenceTimer) : Bool :=
  tm.staged_start_times.all (fun p => !p.2.isEmpty)

/-- The raw duration samples one timer holds for a stage, read directly
off its two dicts (empty when the stage is absent). -/
def rawStageSamples (tm : InferenceTimer) (s : String) : List ℚ :=
  match dictGet tm.staged_start_times s, dictGet tm.staged_stop_times s with
  | some l1, some l2 => rawDeltas l1 l2
  | _, _ => []

/-- The spec's description of aggregation input: the raw samples for a
stage merged across every tracked snapshot, in tracking order. -/
def mergedSamples (pt : PipelineTimer) (s : String) : List ℚ :=
  (pt.timers.map (fun tm => rawStageSamples tm s)).flatten

theorem stage_times_of_balanced (tm : InferenceTimer)
    (hb : tm.balanced = true) (s : String) (hs : s ∈ tm.stages) :
    tm.stage_times s = .ok (rawStageSamples tm s) := by
  obtain ⟨l1, hget, hentry⟩ :=
    mem_keys_exists_entry tm.staged_start_times s hs
  have hb2 := List.all_eq_true.mp hb (s, l1) hentry
  simp only at hb2
  rcases hstop : dictGet tm.staged_stop_times s with _ | l2
  · rw [hstop] at hb2; simp at hb2
  · rw [hstop] at hb2
    have hlen : l1.length = l2.length := by simpa using hb2
    simp [InferenceTimer.stage_times, hget, hstop, hlen, rawStageSamples]

theorem rawStageSamples_ne_nil (tm : InferenceTimer)
    (hb : tm.balanced = true) (hsam : tm.hasSamples = true)
    (s : String) (hs : s ∈ tm.stages) : rawStageSamples tm s ≠ [] := by
  obtain ⟨l1, hget, hentry⟩ :=
    mem_keys_exists_entry tm.staged_start_times s hs
  have hb2 := List.all_eq_true.mp hb (s, l1) hentry
  have hs2 := List.all_eq_true.mp hsam (s, l1) hentry
  simp only at hb2 hs2
  have hl1 : l1 ≠ [] := by simpa [List.isEmpty_iff] using hs2
  rcases hstop : dictGet tm.staged_stop_times s with _ | l2
  · rw [hstop] at hb2; simp at hb2
  · rw [hstop] at hb2
    have hlen : l1.length = l2.length := by simpa using hb2
    intro hnil
    rw [rawStageSamples, hget, hstop] at hnil
    simp only at hnil
    have hlen3 : (rawDeltas l1 l2).length = 0 := by rw [hnil]; rfl
    have hmin : min l2.length l1.length = 0 := by
      simpa [rawDeltas] using hlen3
    have hl10 : l1.length = 0 := by omega
    exact hl1 (List.length_eq_zero.mp hl10)

theorem rawStageSamples_of_not_mem (tm : InferenceTimer) (s : String)
    (hs : s ∉ tm.stages) : rawStageSamples tm s = [] := by
  rcases hget : dictGet tm.staged_start_times s with _ | l1
  · simp [rawStageSamples, hget]
  · exfalso
    apply hs
    have : (dictGet tm.staged_start_times s).isSome := by simp [hget]
    exact (dictGet_isSome_iff_mem _ _).mp this

theorem mapME_ok {α : Type} (f : String → Except String α) (g : String → α)
    (L : List String) (h : ∀ s ∈ L, f s = .ok (g s)) :
    mapME f L = .ok (L.map g) := by
  induction L with
  | nil => simp [mapME]
  | cons s rest ih =>
      have hs := h s (by simp)
      have hr := ih (fun x hx => h x (by simp [hx]))
      simp [mapME, hs, hr, Bind.bind, Except.bind]

theorem all_times_of_balanced (tm : InferenceTimer)
    (hb : tm.balanced = true) :
    tm.all_times =
      .ok (tm.stages.map (fun s => (s, rawStageSamples tm s))) := by
  rw [InferenceTimer.all_times]
  apply mapME_ok
  intro s hs
  simp [stage_times_of_balanced tm hb s hs, Bind.bind, Except.bind]

theorem dictGet_map_of_mem {α : Type} (g : String → α) (L : List String)
    (k : String) (h : k ∈ L) :
    dictGet (L.map (fun s => (s, g s))) k = some (g k) := by
  induction L with
  | nil => simp at h
  | cons s rest ih =>
      by_cases hsk : s = k
      · subst hsk; simp [dictGet]
      · have : k ∈ rest := by
          rcases List.mem_cons.mp h with h1 | h1
          · exact absurd h1.symm hsk
          · exact h1
        simp [dictGet, hsk, ih this]

theorem dictGet_map_of_not_mem {α : Type} (g : String → α)
    (L : List String) (k : String) (h : k ∉ L) :
    dictGet (L.map (fun s => (s, g s))) k = none := by
  induction L with
  | nil => simp [dictGet]
  | cons s rest ih =>
      have hsk : s ≠ k := by rintro rfl; exact h (by simp)
      have : k ∉ rest := fun hk => h (by simp [hk])
      simp [dictGet, hsk, ih this]

theorem dictKeys_graph_map {α : Type} (g : String → α) (L : List String) :
    dictKeys (L.map (fun s => (s, g s))) = L := by
  induction L with
  | nil => rfl
  | cons s rest ih => simp [dictKeys] at ih ⊢; exact ih

theorem mem_foldl_addStage (xs : List String) :
    ∀ (acc : List String) (s : String),
      s ∈ xs.foldl PipelineTimer.addStage acc ↔ s ∈ acc ∨ s ∈ xs := by
  induction xs with
  | nil => intro acc s; simp
  | cons x rest ih =>
      intro acc s
      rw [List.foldl_cons, ih]
      unfold PipelineTimer.addStage
      by_cases hc : acc.contains x
      · have hx : x ∈ acc := by simpa using hc
        simp only [hc, if_true]
        constructor
        · rintro (h | h)
          · exact Or.inl h
          · exact Or.inr (List.mem_cons_of_mem _ h)
        · rintro (h | h)
          · exact Or.inl h
          · rcases List.mem_cons.mp h with rfl | h2
            · exact Or.inl hx
            · exact Or.inr h2
      · simp only [hc, if_false, Bool.false_eq_true]
        simp [List.mem_append, List.mem_cons]
        tauto

theorem nodup_foldl_addStage (xs : List String) :
    ∀ acc : List String, acc.Nodup →
      (xs.foldl PipelineTimer.addStage acc).Nodup := by
  induction xs with
  | nil => intro acc h; exact h
  | cons x rest ih =>
      intro acc h
      rw [List.foldl_cons]
      apply ih
      unfold PipelineTimer.addStage
      by_cases hc : acc.contains x
      · simp only [hc, if_true]; exact h
      · have hx : x ∉ acc := by simpa using hc
        simp only [hc, if_false, Bool.false_eq_true]
        simp [List.nodup_append, h, hx]

theorem mem_stages_fold (timers : List InferenceTimer) :
    ∀ (acc : List String) (s : String),
      s ∈ timers.foldl (fun acc tm => tm.stages.foldl
        PipelineTimer.addStage acc) acc ↔
        s ∈ acc ∨ ∃ tm ∈ timers, s ∈ tm.stages := by
  induction timers with
  | nil => intro acc s; simp
  | cons tm rest ih =>
      intro acc s
      rw [List.foldl_cons, ih, mem_foldl_addStage]
      simp only [List.mem_cons]
      constructor
      · rintro ((h | h) | ⟨tm2, h2, h3⟩)
        · exact Or.inl h
        · exact Or.inr ⟨tm, Or.inl rfl, h⟩
        · exact Or.inr ⟨tm2, Or.inr h2, h3⟩
      · rintro (h | ⟨tm2, (rfl | h2), h3⟩)
        · exact Or.inl (Or.inl h)
        · exact Or.inl (Or.inr h3)
        · exact Or.inr ⟨tm2, h2, h3⟩

theorem mem_stages_iff (pt : PipelineTimer) (s : String) :
    s ∈ pt.stages ↔ ∃ tm ∈ pt.timers, s ∈ tm.stages := by
  rw [PipelineTimer.stages, mem_stages_fold]
  simp

theorem nodup_stages (pt : PipelineTimer) : pt.stages.Nodup := by
  rw [PipelineTimer.stages]
  have : ∀ (timers : List InferenceTimer) (acc : List String), acc.Nodup →
      (timers.foldl (fun acc tm => tm.stages.foldl
        PipelineTimer.addStage acc) acc).Nodup := by
    intro timers
    induction timers with
    | nil => intro acc h; exact h
    | cons tm rest ih =>
        intro acc h
        rw [List.foldl_cons]
        exact ih _ (nodup_foldl_addStage _ _ h)
  exact this pt.timers [] List.nodup_nil

theorem foldME_extendEntry (E : List (String × List ℚ)) :
    ∀ acc : List (String × List ℚ), (dictKeys E).Nodup →
      (∀ k ∈ dictKeys E, k ∈ dictKeys acc) →
      ∃ acc2, foldME PipelineTimer.extendEntry acc E = .ok acc2 ∧
        dictKeys acc2 = dictKeys acc ∧
        ∀ s, dictGet acc2 s =
          (dictGet acc s).map (fun cur => cur ++ ((dictGet E s).getD [])) := by
  induction E with
  | nil =>
      intro acc hnd hsub
      refine ⟨acc, by simp [foldME], rfl, ?_⟩
      intro s
      cases h : dictGet acc s <;> simp [dictGet]
  | cons p rest ih =>
      obtain ⟨k, v⟩ := p
      intro acc hnd hsub
      have hkacc : k ∈ dictKeys acc := hsub k (by simp [dictKeys])
      obtain ⟨cur, hcur⟩ : ∃ cur, dictGet acc k = some cur := by
        have hsome := (dictGet_isSome_iff_mem acc k).mpr hkacc
        rcases h : dictGet acc k with _ | cur
        · rw [h] at hsome; simp at hsome
        · exact ⟨cur, rfl⟩
      have hkeys1 : dictKeys (dictSet acc k (cur ++ v)) = dictKeys acc :=
        dictKeys_dictSet_mem acc _ hkacc
      have hnd2 : (dictKeys rest).Nodup := by
        simp only [dictKeys, List.map_cons] at hnd
        exact (List.nodup_cons.mp hnd).2
      have hknotin : k ∉ dictKeys rest := by
        simp only [dictKeys, List.map_cons] at hnd
        exact (List.nodup_cons.mp hnd).1
      have hsub2 : ∀ k2 ∈ dictKeys rest,
          k2 ∈ dictKeys (dictSet acc k (cur ++ v)) := by
        intro k2 hk2
        rw [hkeys1]
        apply hsub
        simp only [dictKeys, List.map_cons, List.mem_cons]
        exact Or.inr hk2
      obtain ⟨acc2, hfold, hkeys2, hget2⟩ :=
        ih (dictSet acc k (cur ++ v)) hnd2 hsub2
      refine ⟨acc2, ?_, by rw [hkeys2, hkeys1], ?_⟩
      · simp [foldME, PipelineTimer.extendEntry, hcur, Bind.bind,
          Except.bind, hfold]
      · intro s
        by_cases hsk : k = s
        · subst hsk
          have hrest : dictGet rest k = none := by
            rcases h : dictGet rest k with _ | w
            · rfl
            · exact absurd ((dictGet_isSome_iff_mem rest k).mp
                (by simp [h])) hknotin
          have h2 := hget2 k
          rw [hrest, dictGet_dictSet_self] at h2
          have h3 : dictGet acc2 k = some (cur ++ v) := by simpa using h2
          simp [dictGet, hcur, h3]
        · have h2 := hget2 s
          rw [dictGet_dictSet_ne _ _ hsk] at h2
          simpa [dictGet, hsk] using h2

theorem mergeTimer_ok (tm : InferenceTimer) (acc : List (String × List ℚ))
    (hb : tm.balanced = true)
    (hnd : (dictKeys tm.staged_start_times).Nodup)
    (hsub : ∀ k ∈ tm.stages, k ∈ dictKeys acc) :
    ∃ acc2, PipelineTimer.mergeTimer acc tm = .ok acc2 ∧
      dictKeys acc2 = dictKeys acc ∧
      ∀ s, dictGet acc2 s =
        (dictGet acc s).map (fun cur => cur ++ rawStageSamples tm s) := by
  have htt := all_times_of_balanced tm hb
  have hknd : (dictKeys (tm.stages.map
      (fun s => (s, rawStageSamples tm s)))).Nodup := by
    rw [dictKeys_graph_map]; exact hnd
  have hksub : ∀ k ∈ dictKeys (tm.stages.map
      (fun s => (s, rawStageSamples tm s))), k ∈ dictKeys acc := by
    rw [dictKeys_graph_map]; exact hsub
  obtain ⟨acc2, hfold, hkeys, hget⟩ := foldME_extendEntry _ acc hknd hksub
  refine ⟨acc2, ?_, hkeys, ?_⟩
  · simp [PipelineTimer.mergeTimer, htt, Bind.bind, Except.bind, hfold]
  · intro s
    have h1 := hget s
    by_cases hmem : s ∈ tm.stages
    · rw [dictGet_map_of_mem _ _ _ hmem] at h1
      simpa using h1
    · rw [dictGet_map_of_not_mem _ _ _ hmem] at h1
      rw [rawStageSamples_of_not_mem tm s hmem]
      simpa using h1

theorem foldME_mergeTimer (timers : List InferenceTimer) :
    ∀ acc : List (String × List ℚ),
      (∀ tm ∈ timers, tm.balanced = true ∧
        (dictKeys tm.staged_start_times).Nodup ∧
        ∀ k ∈ tm.stages, k ∈ dictKeys acc) →
      ∃ fin2, foldME PipelineTimer.mergeTimer acc timers = .ok fin2 ∧
        dictKeys fin2 = dictKeys acc ∧
        ∀ s, dictGet fin2 s = (dictGet acc s).map
          (fun cur => cur ++
            (timers.map (fun tm => rawStageSamples tm s)).flatten) := by
  induction timers with
  | nil =>
      intro acc h
      refine ⟨acc, by simp [foldME], rfl, ?_⟩
      intro s; cases hg : dictGet acc s <;> simp
  | cons tm rest ih =>
      intro acc h
      obtain ⟨hb, hnd, hsub⟩ := h tm (by simp)
      obtain ⟨acc1, hmerge, hkeys1, hget1⟩ := mergeTimer_ok tm acc hb hnd hsub
      have hcond : ∀ tm2 ∈ rest, tm2.balanced = true ∧
          (dictKeys tm2.staged_start_times).Nodup ∧
          ∀ k ∈ tm2.stages, k ∈ dictKeys acc1 := by
        intro tm2 h2
        obtain ⟨a, b, c⟩ := h tm2 (by simp [h2])
        exact ⟨a, b, fun k hk => by rw [hkeys1]; exact c k hk⟩
      obtain ⟨fin2, hfold, hkeys2, hget2⟩ := ih acc1 hcond
      refine ⟨fin2, ?_, by rw [hkeys2, hkeys1], ?_⟩
      · simp [foldME, hmerge, Bind.bind, Except.bind, hfold]
      · intro s
        have h2 := hget2 s
        rw [hget1 s] at h2
        cases hacc : dictGet acc s with
        | none => rw [hacc] at h2; simpa using h2
        | some cur => rw [hacc] at h2; simpa [List.append_assoc] using h2

/-- C1: for every PipelineTimer whose tracked snapshots all have balanced
stages (each with at least one sample; with well-formed dicts, i.e.
unique keys, as Python guarantees), the aggregated `times` mapping
assigns to each stage the sum of that stage's raw duration samples merged
across every tracked snapshot, divided by the total number of merged
samples. -/
theorem c1_times_averages_merged_raw_samples (pt : PipelineTimer)
    (hbal : ∀ tm ∈ pt.timers, tm.balanced = true)
    (hsam : ∀ tm ∈ pt.timers, tm.hasSamples = true)
    (hwf : ∀ tm ∈ pt.timers, (dictKeys tm.staged_start_times).Nodup) :
    ∃ m, pt.times = .ok m ∧
      ∀ s ∈ pt.stages,
        dictGet m s = some ((mergedSamples pt s).sum /
          ((mergedSamples pt s).length : ℚ)) := by
  have hkeys0 : dictKeys (pt.stages.map (fun s => (s, ([] : List ℚ)))) =
      pt.stages := dictKeys_graph_map _ _
  have hcond : ∀ tm ∈ pt.timers, tm.balanced = true ∧
      (dictKeys tm.staged_start_times).Nodup ∧
      ∀ k ∈ tm.stages,
        k ∈ dictKeys (pt.stages.map (fun s => (s, ([] : List ℚ)))) := by
    intro tm htm
    exact ⟨hbal tm htm, hwf tm htm, fun k hk => by
      rw [hkeys0]; exact (mem_stages_iff pt k).mpr ⟨tm, htm, hk⟩⟩
  obtain ⟨A, hA, hkeysA, hgetA⟩ := foldME_mergeTimer pt.timers _ hcond
  have hall : pt.all_times = .ok A := hA
  have hgetA2 : ∀ s ∈ pt.stages, dictGet A s = some (mergedSamples pt s) := by
    intro s hsm
    have h1 := hgetA s
    rw [dictGet_map_of_mem _ _ _ hsm] at h1
    simpa [mergedSamples] using h1
  have hne : ∀ s ∈ pt.stages, mergedSamples pt s ≠ [] := by
    intro s hsm hnil
    obtain ⟨tm, htm, hstm⟩ := (mem_stages_iff pt s).mp hsm
    have hraw := rawStageSamples_ne_nil tm (hbal tm htm) (hsam tm htm) s hstm
    rw [mergedSamples, List.flatten_eq_nil_iff] at hnil
    exact hraw (hnil _ (List.mem_map_of_mem _ htm))
  have htimes : pt.times = .ok (pt.stages.map (fun s =>
      (s, (mergedSamples pt s).sum /
        ((mergedSamples pt s).length : ℚ)))) := by
    rw [PipelineTimer.times]
    simp only [hall, Bind.bind, Except.bind]
    apply mapME_ok
    intro s hsm
    rw [hgetA2 s hsm]
    have hlen : (mergedSamples pt s).length ≠ 0 := by
      intro h0; exact hne s hsm (List.length_eq_zero.mp h0)
    simp [hlen]
  refine ⟨_, htimes, ?_⟩
  intro s hsm
  rw [dictGet_map_of_mem _ _ _ hsm]

/-- Witness for C1 on two snapshots with uneven sample counts for stage
`"x"`: samples `[1]` and `[2, 6]`, whose merged average is 3 (while the
average of the two per-snapshot averages would be 3.25). -/
theorem c1_witness :
    ∃ m, (⟨false, true,
        [⟨[("x", [(0 : ℚ)])], [("x", [1])]⟩,
          ⟨[("x", [(0 : ℚ), 10])], [("x", [2, 16])]⟩]⟩ :
        PipelineTimer).times = .ok m ∧
      ∀ s ∈ (⟨false, true,
        [⟨[("x", [(0 : ℚ)])], [("x", [1])]⟩,
          ⟨[("x", [(0 : ℚ), 10])], [("x", [2, 16])]⟩]⟩ :
        PipelineTimer).stages,
        dictGet m s = some ((mergedSamples ⟨false, true,
          [⟨[("x", [(0 : ℚ)])], [("x", [1])]⟩,
            ⟨[("x", [(0 : ℚ), 10])], [("x", [2, 16])]⟩]⟩ s).sum /
          ((mergedSamples ⟨false, true,
            [⟨[("x", [(0 : ℚ)])], [("x", [1])]⟩,
              ⟨[("x", [(0 : ℚ), 10])], [("x", [2, 16])]⟩]⟩ s).length : ℚ)) :=
  c1_times_averages_merged_raw_samples
    ⟨false, true,
      [⟨[("x", [(0 : ℚ)])], [("x", [1])]⟩,
        ⟨[("x", [(0 : ℚ), 10])], [("x", [2, 16])]⟩]⟩
    (by decide) (by decide) (by decide)

/-! ### C10: disabled timers are inert -/

/-- C10: when a PipelineTimer's enabled flag is `False`, `reset`,
`start_inference_stage` and `stop_inference_stage` return immediately
without raising and leave the whole timer state unchanged, for any stage
name and any timer contents (including ones on which the same calls would
raise unbalanced-timing errors when enabled). -/
theorem c10_disabled_operations_leave_state_unchanged
    (pt : PipelineTimer) (t : ℚ) (stage : String)
    (h : pt.enabled = false) :
    pt.reset = pt ∧
      pt.start_inference_stage t stage = .ok pt ∧
      pt.stop_inference_stage t stage = .ok pt := by
  refine ⟨?_, ?_, ?_⟩ <;>
    simp [PipelineTimer.reset, PipelineTimer.start_inference_stage,
      PipelineTimer.stop_inference_stage, h]

/-- Witness for C10 on a disabled timer holding one snapshot with an open
unmatched start (the `stop` of a never-started stage would raise when
enabled). -/
theorem c10_witness :
    (⟨true, false, [⟨[("x", [(0 : ℚ)])], [("x", [])]⟩]⟩ :
        PipelineTimer).reset =
        ⟨true, false, [⟨[("x", [(0 : ℚ)])], [("x", [])]⟩]⟩ ∧
      (⟨true, false, [⟨[("x", [(0 : ℚ)])], [("x", [])]⟩]⟩ :
          PipelineTimer).start_inference_stage 5 "x" =
        .ok ⟨true, false, [⟨[("x", [(0 : ℚ)])], [("x", [])]⟩]⟩ ∧
      (⟨true, false, [⟨[("x", [(0 : ℚ)])], [("x", [])]⟩]⟩ :
          PipelineTimer).stop_inference_stage 5 "y" =
        .ok ⟨true, false, [⟨[("x", [(0 : ℚ)])], [("x", [])]⟩]⟩ :=
  c10_disabled_operations_leave_state_unchanged
    ⟨true, false, [⟨[("x", [(0 : ℚ)])], [("x", [])]⟩]⟩ 5 "x" rfl
      |>.imp id (fun h2 =>
        ⟨h2.1, c10_disabled_operations_leave_state_unchanged
          ⟨true, false, [⟨[("x", [(0 : ℚ)])], [("x", [])]⟩]⟩ 5 "y" rfl |>.2.2⟩)

/-! ### C3: stop with no unmatched start fails -/

/-- C3: for every InferenceTimer and stage, calling `stop(stage)` when the
stage has no unmatched start — either never started, or every recorded
start already matched by a stop — raises the unbalanced-timing
`ValueError` and records no duration sample (an `.error` result models a
raise with no mutation). -/
theorem c3_stop_without_unmatched_start_fails
    (tm : InferenceTimer) (t : ℚ) (stage : String)
    (h : dictGet tm.staged_start_times stage = none ∨
      ∃ l1 l2, dictGet tm.staged_start_times stage = some l1 ∧
        dictGet tm.staged_stop_times stage = some l2 ∧
        l1.length = l2.length) :
    exOk (tm.stop t stage) = false := by
  rcases h with h | ⟨l1, l2, h1, h2, hlen⟩
  · simp [InferenceTimer.stop, h, exOk]
  · have hne : l1.length ≠ l2.length + 1 := by omega
    simp [InferenceTimer.stop, h1, h2, hne, exOk]

/-- Witness for C3: stopping `"x"` on a fresh timer (never started). -/
theorem c3_witness : exOk (InferenceTimer.new.stop 0 "x") = false :=
  c3_stop_without_unmatched_start_fails InferenceTimer.new 0 "x" (Or.inl rfl)

/-! ### C8: average of a stage with zero completed samples fails -/

/-- C8: for every InferenceTimer and every stage with zero completed
duration samples — never started, stop-times dict missing the key, an
open unmatched start, or a (Python-unreachable) present-but-empty sample
list — `stage_average_time(stage)` raises rather than returning zero.
The hypothesis says exactly that the stage's completed-delta list, when
computable at all, is empty. -/
theorem c8_average_of_incomplete_stage_fails
    (tm : InferenceTimer) (stage : String)
    (h : ∀ l1 l2, dictGet tm.staged_start_times stage = some l1 →
      dictGet tm.staged_stop_times stage = some l2 →
      l1.length = l2.length → l1 = []) :
    exOk (tm.stage_average_time stage) = false := by
  rcases h1 : dictGet tm.staged_start_times stage with _ | l1
  · simp [InferenceTimer.stage_average_time, InferenceTimer.stage_times,
      h1, exOk, Bind.bind, Except.bind]
  · rcases h2 : dictGet tm.staged_stop_times stage with _ | l2
    · simp [InferenceTimer.stage_average_time, InferenceTimer.stage_times,
        h1, h2, exOk, Bind.bind, Except.bind]
    · by_cases hlen : l1.length = l2.length
      · have hnil := h l1 l2 h1 h2 hlen
        subst hnil
        have hl2nil : l2 = [] := by
          have : l2.length = 0 := by simpa using hlen.symm
          exact List.length_eq_zero.mp this
        subst hl2nil
        simp [InferenceTimer.stage_average_time, InferenceTimer.stage_times,
          h1, h2, rawDeltas, exOk, Bind.bind, Except.bind]
      · simp [InferenceTimer.stage_average_time, InferenceTimer.stage_times,
          h1, h2, hlen, exOk, Bind.bind, Except.bind]

/-- Witness for C8: a timer holding one open unmatched start for `"x"`;
its average is not computable. -/
theorem c8_witness :
    exOk ((⟨[("x", [(0 : ℚ)])], [("x", [])]⟩ :
      InferenceTimer).stage_average_time "x") = false :=
  c8_average_of_incomplete_stage_fails
    ⟨[("x", [(0 : ℚ)])], [("x", [])]⟩ "x"
    (by intro l1 l2 h1 h2 hlen; simp [dictGet] at h1 h2; subst h1; subst h2
        simp at hlen)

/-! ### C2: start-start-stop — the second start actually raises -/

/-- C2 counterexample: on a fresh timer, `start("x")` at time 0 succeeds,
but the second `start("x")` raises the unbalanced-timing error (so the
claimed sequence cannot push a second pending start), and the following
`stop("x")` at time 2 matches the first start: the final state has one
start and one stop recorded for `"x"` (zero unmatched starts) and
`stage_average_time("x")` succeeds, returning 2 — contradicting "exactly
one unmatched start and no computable average". -/
theorem c2_counterexample :
    InferenceTimer.new.start 0 "x" =
        .ok ⟨[("x", [0])], [("x", [])]⟩ ∧
      exOk ((⟨[("x", [(0 : ℚ)])], [("x", [])]⟩ :
        InferenceTimer).start 1 "x") = false ∧
      (⟨[("x", [(0 : ℚ)])], [("x", [])]⟩ : InferenceTimer).stop 2 "x" =
        .ok ⟨[("x", [0])], [("x", [2])]⟩ ∧
      (⟨[("x", [(0 : ℚ)])], [("x", [(2 : ℚ)])]⟩ :
        InferenceTimer).stage_average_time "x" = .ok 2 := by
  refine ⟨rfl, rfl, rfl, ?_⟩
  simp [InferenceTimer.stage_average_time, InferenceTimer.stage_times,
    dictGet, rawDeltas, Bind.bind, Except.bind]

/-- C2 as amended: on a fresh InferenceTimer, the second `start("x")`
without an intervening stop fails with the unbalanced-timing error
(leaving the single pending start in place), and a single `stop("x")`
then matches the first start, leaving zero unmatched starts and a
computable average equal to the one recorded delta. -/
theorem c2_second_start_raises_then_stop_balances (a b c : ℚ) :
    InferenceTimer.new.start a "x" =
        .ok ⟨[("x", [a])], [("x", [])]⟩ ∧
      exOk ((⟨[("x", [a])], [("x", [])]⟩ : InferenceTimer).start b "x") =
        false ∧
      (⟨[("x", [a])], [("x", [])]⟩ : InferenceTimer).stop c "x" =
        .ok ⟨[("x", [a])], [("x", [c])]⟩ ∧
      (⟨[("x", [a])], [("x", [c])]⟩ : InferenceTimer).stage_average_time
          "x" = .ok (c - a) := by
  refine ⟨?_, ?_, ?_, ?_⟩
  · simp [InferenceTimer.start, InferenceTimer.new, dictGet, dictSet]
  · simp [InferenceTimer.start, dictGet, exOk]
  · simp [InferenceTimer.stop, dictGet, dictSet]
  · simp [InferenceTimer.stage_average_time, InferenceTimer.stage_times,
      dictGet, rawDeltas, exOk, Bind.bind, Except.bind]

/-! ### C5: reset appends (multi) or clears (single) -/

/-- C5: for an enabled PipelineTimer that already tracks at least one
snapshot, `reset()` in multi-inference mode appends a fresh empty
InferenceTimer which becomes the current one while every previously
tracked snapshot is unchanged; in single-inference mode with a sole
tracked snapshot, `reset()` clears its recorded data. -/
theorem c5_reset_appends_or_clears (pt : PipelineTimer)
    (h : pt.enabled = true) :
    (pt.multi_inference = true → pt.timers ≠ [] →
      pt.reset = { pt with timers := pt.timers ++ [InferenceTimer.new] } ∧
        pt.reset.current_inference = some InferenceTimer.new) ∧
      (pt.multi_inference = false → ∀ tm, pt.timers = [tm] →
        pt.reset = { pt with timers := [InferenceTimer.new] }) := by
  constructor
  · intro hm hne
    have hsome : pt.timers.getLast?.isSome := by
      rcases hl : pt.timers.getLast? with _ | tm
      · exact absurd (List.getLast?_eq_none_iff.mp hl) hne
      · rfl
    have hcheck : pt.check_start_inference = pt := by
      simp [PipelineTimer.check_start_inference, PipelineTimer.current_inference,
        Option.isNone_iff_eq_none]
      intro hnone
      rw [hnone] at hsome
      simp at hsome
    constructor
    · simp [PipelineTimer.reset, h, hcheck, hm]
    · simp [PipelineTimer.reset, h, hcheck, hm,
        PipelineTimer.current_inference, List.getLast?_concat]
  · intro hm tm htm
    have hcheck : pt.check_start_inference = pt := by
      simp [PipelineTimer.check_start_inference, PipelineTimer.current_inference,
        htm]
    simp [PipelineTimer.reset, h, hcheck, hm, htm, InferenceTimer.clear,
      InferenceTimer.new]

/-! ### C4: start/stop bookkeeping invariant -/

/-- One call against an InferenceTimer: `start`, `stop` (each carrying
the timestamp `time.perf_counter()` would return) or `clear`. -/
inductive TimerOp where
  | startOp : ℚ → String → TimerOp
  | stopOp : ℚ → String → TimerOp
  | clearOp : TimerOp

/-- Apply one call; `.error` models a raised `ValueError` / `KeyError`. -/
def applyOp (tm : InferenceTimer) : TimerOp → Except String InferenceTimer
  | .startOp t s => tm.start t s
  | .stopOp t s => tm.stop t s
  | .clearOp => .ok tm.clear

/-- The state after one call, counting only calls that return normally:
a raising `start` / `stop` performs no mutation before the raise in the
source, so the previous state is kept. -/
def stepOp (tm : InferenceTimer) (op : TimerOp) : InferenceTimer :=
  match applyOp tm op with
  | .ok tm2 => tm2
  | .error _ => tm

/-- Run a call sequence against a fresh InferenceTimer. -/
def runOps (ops : List TimerOp) : InferenceTimer :=
  ops.foldl stepOp InferenceTimer.new

/-- Number of recorded start timestamps of a stage (0 when absent). -/
def startLen (tm : InferenceTimer) (s : String) : ℕ :=
  ((dictGet tm.staged_start_times s).getD []).length

/-- Number of recorded stop timestamps of a stage (0 when absent). -/
def stopLen (tm : InferenceTimer) (s : String) : ℕ :=
  ((dictGet tm.staged_stop_times s).getD []).length

/-- Inversion of a successful `start`: the started stage ends with
exactly one more start than stops, and no other stage's counts move. -/
theorem start_ok_lens (tm : InferenceTimer) (t : ℚ) (s0 : String)
    (tm2 : InferenceTimer) (h : tm.start t s0 = .ok tm2) :
    stopLen tm2 s0 + 1 = startLen tm2 s0 ∧
      ∀ s, s ≠ s0 →
        startLen tm2 s = startLen tm s ∧ stopLen tm2 s = stopLen tm s := by
  simp only [InferenceTimer.start] at h
  by_cases hf : (dictGet tm.staged_start_times s0).isNone
  · simp only [hf, if_true, dictGet_dictSet_self] at h
    simp only [ne_eq, ite_not, List.length_nil, if_pos, reduceIte] at h
    obtain rfl := Except.ok.inj h
    constructor
    · simp [startLen, stopLen, dictGet_dictSet_self]
    · intro s hs
      have hs0 : s0 ≠ s := Ne.symm hs
      simp [startLen, stopLen, dictGet_dictSet_ne _ _ hs0]
  · rcases hget : dictGet tm.staged_start_times s0 with _ | l1
    · rw [hget] at hf; simp at hf
    · simp only [hget, Option.isNone_some, Bool.false_eq_true, if_false] at h
      rcases hstop : dictGet tm.staged_stop_times s0 with _ | l2
      · rw [hstop] at h; simp at h
      · rw [hstop] at h
        by_cases hlen : l1.length = l2.length
        · simp only [hlen, ne_eq, not_true_eq_false, if_neg, reduceIte] at h
          obtain rfl := Except.ok.inj h
          constructor
          · simp [startLen, stopLen, dictGet_dictSet_self, hget, hstop, hlen]
          · intro s hs
            have hs0 : s0 ≠ s := Ne.symm hs
            simp [startLen, stopLen, dictGet_dictSet_ne _ _ hs0]
        · simp [hlen] at h

/-- Inversion of a successful `stop`: it required one unmatched start
(start count = stop count + 1), it appends exactly one stop timestamp,
and no other stage's counts move. -/
theorem stop_ok_lens (tm : InferenceTimer) (t : ℚ) (s0 : String)
    (tm2 : InferenceTimer) (h : tm.stop t s0 = .ok tm2) :
    startLen tm s0 = stopLen tm s0 + 1 ∧
      startLen tm2 s0 = startLen tm s0 ∧
      stopLen tm2 s0 = stopLen tm s0 + 1 ∧
      ∀ s, s ≠ s0 →
        startLen tm2 s = startLen tm s ∧ stopLen tm2 s = stopLen tm s := by
  simp only [InferenceTimer.stop] at h
  rcases hget : dictGet tm.staged_start_times s0 with _ | l1
  · rw [hget] at h; simp at h
  · rw [hget] at h
    rcases hstop : dictGet tm.staged_stop_times s0 with _ | l2
    · rw [hstop] at h; simp at h
    · rw [hstop] at h
      by_cases hlen : l1.length = l2.length + 1
      · simp only [hlen, ne_eq, not_true_eq_false, if_neg, reduceIte] at h
        obtain rfl := Except.ok.inj h
        refine ⟨by simp [startLen, stopLen, hget, hstop, hlen], ?_, ?_, ?_⟩
        · simp [startLen, hget]
        · simp [stopLen, hstop, dictGet_dictSet_self]
        · intro s hs
          have hs0 : s0 ≠ s := Ne.symm hs
          simp [startLen, stopLen, dictGet_dictSet_ne _ _ hs0]
      · simp [hlen] at h

/-- The per-stage bookkeeping invariant: stop count never exceeds start
count, and at most one start is unmatched. -/
def InvTimer (tm : InferenceTimer) : Prop :=
  ∀ s, stopLen tm s ≤ startLen tm s ∧ startLen tm s ≤ stopLen tm s + 1

theorem invTimer_new : InvTimer InferenceTimer.new := by
  intro s
  simp [startLen, stopLen, InferenceTimer.new, dictGet]

theorem invTimer_step (tm : InferenceTimer) (op : TimerOp)
    (h : InvTimer tm) : InvTimer (stepOp tm op) := by
  cases op with
  | startOp t s0 =>
      cases happ : tm.start t s0 with
      | error e => simpa [stepOp, applyOp, happ] using h
      | ok tm2 =>
          simp only [stepOp, applyOp, happ]
          intro s
          rcases start_ok_lens tm t s0 tm2 happ with ⟨h1, h2⟩
          by_cases hs : s = s0
          · subst hs; omega
          · rcases h2 s hs with ⟨e1, e2⟩
            rcases h s with ⟨e3, e4⟩
            omega
  | stopOp t s0 =>
      cases happ : tm.stop t s0 with
      | error e => simpa [stepOp, applyOp, happ] using h
      | ok tm2 =>
          simp only [stepOp, applyOp, happ]
          intro s
          rcases stop_ok_lens tm t s0 tm2 happ with ⟨h1, h2, h3, h4⟩
          by_cases hs : s = s0
          · subst hs; omega
          · rcases h4 s hs with ⟨e1, e2⟩
            rcases h s with ⟨e3, e4⟩
            omega
  | clearOp =>
      intro s
      simp [stepOp, applyOp, InferenceTimer.clear, startLen, stopLen,
        dictGet]

theorem invTimer_foldl (ops : List TimerOp) :
    ∀ tm, InvTimer tm → InvTimer (ops.foldl stepOp tm) := by
  induction ops with
  | nil => intro tm h; exact h
  | cons op rest ih =>
      intro tm h
      exact ih _ (invTimer_step tm op h)

/-- C4: along every sequence of `start` / `stop` / `clear` calls from a
fresh InferenceTimer (counting only calls that return normally), every
stage's recorded stop count never exceeds its recorded start count; and
a stop is only ever recorded when an unmatched start exists at that
moment (a successful `stop` requires start count = stop count + 1 and
appends exactly one stop timestamp). -/
theorem c4_stop_counts_bounded_by_start_counts
    (ops : List TimerOp) (sn : String) (tm tm2 : InferenceTimer) (t : ℚ) :
    stopLen (runOps ops) sn ≤ startLen (runOps ops) sn ∧
      (tm.stop t sn = .ok tm2 →
        startLen tm sn = stopLen tm sn + 1 ∧
          stopLen tm2 sn = stopLen tm sn + 1) := by
  constructor
  · exact (invTimer_foldl ops InferenceTimer.new invTimer_new sn).1
  · intro h
    rcases stop_ok_lens tm t sn tm2 h with ⟨h1, _, h3, _⟩
    exact ⟨h1, h3⟩

/-- Witness for C4 on the sequence start-stop-start for `"x"` and a
concrete successful stop. -/
theorem c4_witness :
    stopLen (runOps [TimerOp.startOp 0 "x", TimerOp.stopOp 1 "x",
        TimerOp.startOp 2 "x"]) "x" ≤
      startLen (runOps [TimerOp.startOp 0 "x", TimerOp.stopOp 1 "x",
        TimerOp.startOp 2 "x"]) "x" ∧
      startLen (⟨[("x", [(0 : ℚ)])], [("x", [])]⟩ : InferenceTimer) "x" =
          stopLen (⟨[("x", [(0 : ℚ)])], [("x", [])]⟩ : InferenceTimer) "x"
            + 1 ∧
        stopLen (⟨[("x", [(0 : ℚ)])], [("x", [1])]⟩ : InferenceTimer) "x" =
          stopLen (⟨[("x", [(0 : ℚ)])], [("x", [])]⟩ : InferenceTimer) "x"
            + 1 :=
  ⟨(c4_stop_counts_bounded_by_start_counts
      [TimerOp.startOp 0 "x", TimerOp.stopOp 1 "x", TimerOp.startOp 2 "x"]
      "x" ⟨[("x", [(0 : ℚ)])], [("x", [])]⟩
      ⟨[("x", [(0 : ℚ)])], [("x", [1])]⟩ 1).1,
    (c4_stop_counts_bounded_by_start_counts
      [TimerOp.startOp 0 "x", TimerOp.stopOp 1 "x", TimerOp.startOp 2 "x"]
      "x" ⟨[("x", [(0 : ℚ)])], [("x", [])]⟩
      ⟨[("x", [(0 : ℚ)])], [("x", [1])]⟩ 1).2 rfl⟩

/-! ### C6: N runs in multi-inference mode -/

/-- `check_start_inference` is a no-op once a snapshot is tracked. -/
theorem check_of_ne_nil (pt : PipelineTimer) (h : pt.timers ≠ []) :
    pt.check_start_inference = pt := by
  have hsome : pt.timers.getLast?.isSome := by
    rcases hl : pt.timers.getLast? with _ | tm
    · exact absurd (List.getLast?_eq_none_iff.mp hl) h
    · rfl
  simp [PipelineTimer.check_start_inference, PipelineTimer.current_inference,
    Option.isNone_iff_eq_none]
  intro hnone
  rw [hnone] at hsome
  simp at hsome

/-- The snapshot produced by one run of the C6 scenario: stage
`"stage"` started at time 0 and stopped at time 1. -/
def recTm : InferenceTimer := ⟨[("stage", [0])], [("stage", [1])]⟩

/-- One run of the C6 scenario: `reset()`, then record one stage sample
into the current snapshot (start at time 0, stop at time 1). -/
def runInference (pt : PipelineTimer) : Except String PipelineTimer := do
  let pt2 ← (pt.reset).start_inference_stage 0 "stage"
  pt2.stop_inference_stage 1 "stage"

/-- `n` sequential runs of the C6 scenario. -/
def runInferences : ℕ → PipelineTimer → Except String PipelineTimer
  | 0, pt => .ok pt
  | n + 1, pt => do
      let pt2 ← runInference pt
      runInferences n pt2

/-- One run on an enabled multi-inference timer that already tracks a
snapshot appends exactly one recorded snapshot. -/
theorem runInference_of_ne_nil (pt : PipelineTimer)
    (h1 : pt.enabled = true) (h2 : pt.multi_inference = true)
    (h3 : pt.timers ≠ []) :
    runInference pt = .ok { pt with timers := pt.timers ++ [recTm] } := by
  have hreset : pt.reset =
      { pt with timers := pt.timers ++ [InferenceTimer.new] } := by
    simp [PipelineTimer.reset, h1, check_of_ne_nil pt h3, h2]
  have hstart : ({ pt with timers := pt.timers ++ [InferenceTimer.new] } :
      PipelineTimer).start_inference_stage 0 "stage" =
      .ok { pt with timers :=
        pt.timers ++ [⟨[("stage", [0])], [("stage", [])]⟩] } := by
    simp [PipelineTimer.start_inference_stage, h1, check_of_ne_nil,
      List.getLast?_concat, List.dropLast_concat, InferenceTimer.start,
      InferenceTimer.new, dictGet, dictSet, Bind.bind, Except.bind]
  have hstop : ({ pt with timers :=
      pt.timers ++ [⟨[("stage", [0])], [("stage", [])]⟩] } :
      PipelineTimer).stop_inference_stage 1 "stage" =
      .ok { pt with timers := pt.timers ++ [recTm] } := by
    simp [PipelineTimer.stop_inference_stage, h1, check_of_ne_nil,
      List.getLast?_concat, List.dropLast_concat, InferenceTimer.stop,
      dictGet, dictSet, recTm, Bind.bind, Except.bind]
  simp [runInference, hreset, hstart, hstop, Bind.bind, Except.bind]

/-- `n` runs on an enabled multi-inference timer that already tracks a
snapshot append exactly `n` recorded snapshots. -/
theorem runInferences_of_ne_nil (n : ℕ) :
    ∀ pt : PipelineTimer, pt.enabled = true → pt.multi_inference = true →
      pt.timers ≠ [] →
      runInferences n pt =
        .ok { pt with timers := pt.timers ++ List.replicate n recTm } := by
  induction n with
  | zero => intro pt h1 h2 h3; simp [runInferences]
  | succ n ih =>
      intro pt h1 h2 h3
      have hrun := runInference_of_ne_nil pt h1 h2 h3
      have hne : ({ pt with timers := pt.timers ++ [recTm] } :
          PipelineTimer).timers ≠ [] := by simp
      have hrec := ih { pt with timers := pt.timers ++ [recTm] } h1 h2 hne
      simp [runInferences, hrun, hrec, Bind.bind, Except.bind,
        List.replicate_succ]

/-- C6 counterexample: from a fresh enabled multi-inference
PipelineTimer, one `reset()` followed by recording one stage sample
leaves two tracked snapshots, not one — the first `reset()` implicitly
creates an initial snapshot and then appends another. -/
theorem c6_counterexample :
    (runInferences 1 (PipelineTimer.new true true)).map
        (fun pt => pt.timers.length) = .ok 2 ∧ (2 : ℕ) ≠ 1 :=
  ⟨rfl, by decide⟩

/-- C6 as amended: starting from a fresh PipelineTimer in enabled
multi-inference mode, `N ≥ 1` sequential `reset()` calls each followed by
recording one stage sample yield `N + 1` tracked snapshots: an initial
empty snapshot implicitly created by the first `reset()`, followed by the
`N` independent recorded snapshots. -/
theorem c6_runs_track_n_plus_one_snapshots (n : ℕ) :
    runInferences (n + 1) (PipelineTimer.new true true) =
        .ok ⟨true, true, InferenceTimer.new ::
          List.replicate (n + 1) recTm⟩ ∧
      (runInferences (n + 1) (PipelineTimer.new true true)).map
        (fun pt => pt.timers.length) = .ok ((n + 1) + 1) := by
  have hfirst : runInference (PipelineTimer.new true true) =
      .ok ⟨true, true, [InferenceTimer.new, recTm]⟩ := rfl
  have hrest := runInferences_of_ne_nil n
    ⟨true, true, [InferenceTimer.new, recTm]⟩ rfl rfl (by simp)
  have hmain : runInferences (n + 1) (PipelineTimer.new true true) =
      .ok ⟨true, true, InferenceTimer.new ::
        List.replicate (n + 1) recTm⟩ := by
    simp [runInferences, hfirst, Bind.bind, Except.bind, hrest,
      List.replicate_succ]
  refine ⟨hmain, ?_⟩
  simp [hmain, Except.map]

/-! ### C9: nested stages are independent -/

/-- C9: for distinct stage names `A` and `B`, the nested sequence
`start(B); start(A); stop(A); stop(B)` on a fresh InferenceTimer succeeds
at every step, and afterwards stage `A` holds exactly the one sample
`t3 - t2` (its own stop minus its own start) and stage `B` exactly
`t4 - t1`, each independent of the other stage. -/
theorem c9_nested_stages_tracked_independently
    (A B : String) (hAB : A ≠ B) (t1 t2 t3 t4 : ℚ) :
    InferenceTimer.new.start t1 B = .ok ⟨[(B, [t1])], [(B, [])]⟩ ∧
      (⟨[(B, [t1])], [(B, [])]⟩ : InferenceTimer).start t2 A =
        .ok ⟨[(B, [t1]), (A, [t2])], [(B, []), (A, [])]⟩ ∧
      (⟨[(B, [t1]), (A, [t2])], [(B, []), (A, [])]⟩ :
          InferenceTimer).stop t3 A =
        .ok ⟨[(B, [t1]), (A, [t2])], [(B, []), (A, [t3])]⟩ ∧
      (⟨[(B, [t1]), (A, [t2])], [(B, []), (A, [t3])]⟩ :
          InferenceTimer).stop t4 B =
        .ok ⟨[(B, [t1]), (A, [t2])], [(B, [t4]), (A, [t3])]⟩ ∧
      (⟨[(B, [t1]), (A, [t2])], [(B, [t4]), (A, [t3])]⟩ :
          InferenceTimer).stage_times A = .ok [t3 - t2] ∧
      (⟨[(B, [t1]), (A, [t2])], [(B, [t4]), (A, [t3])]⟩ :
          InferenceTimer).stage_times B = .ok [t4 - t1] := by
  have hBA : B ≠ A := Ne.symm hAB
  refine ⟨?_, ?_, ?_, ?_, ?_, ?_⟩ <;>
    simp [InferenceTimer.start, InferenceTimer.stop,
      InferenceTimer.stage_times, InferenceTimer.new, dictGet, dictSet,
      rawDeltas, hAB, hBA]

/-- Witness for C9 at `A := "a"`, `B := "b"` and timestamps 0, 1, 2, 3. -/
theorem c9_witness :
    InferenceTimer.new.start 0 "b" = .ok ⟨[("b", [0])], [("b", [])]⟩ ∧
      (⟨[("b", [(0 : ℚ)])], [("b", [])]⟩ : InferenceTimer).start 1 "a" =
        .ok ⟨[("b", [0]), ("a", [1])], [("b", []), ("a", [])]⟩ ∧
      (⟨[("b", [(0 : ℚ)]), ("a", [1])], [("b", []), ("a", [])]⟩ :
          InferenceTimer).stop 2 "a" =
        .ok ⟨[("b", [0]), ("a", [1])], [("b", []), ("a", [2])]⟩ ∧
      (⟨[("b", [(0 : ℚ)]), ("a", [1])], [("b", []), ("a", [2])]⟩ :
          InferenceTimer).stop 3 "b" =
        .ok ⟨[("b", [0]), ("a", [1])], [("b", [3]), ("a", [2])]⟩ ∧
      (⟨[("b", [(0 : ℚ)]), ("a", [1])], [("b", [3]), ("a", [2])]⟩ :
          InferenceTimer).stage_times "a" = .ok [2 - 1] ∧
      (⟨[("b", [(0 : ℚ)]), ("a", [1])], [("b", [3]), ("a", [2])]⟩ :
          InferenceTimer).stage_times "b" = .ok [3 - 0] :=
  c9_nested_stages_tracked_independently "a" "b" (by decide) 0 1 2 3

/-! ### C7: current snapshot and implicit creation -/

/-- C7: `current_inference` is the most recently appended snapshot, or
none when no snapshot has been started; and from the no-snapshot state,
each mutating operation (`reset`, `start_inference_stage`,
`stop_inference_stage`) on an enabled timer behaves exactly as if a
single fresh snapshot had first been created and the operation then run
on that state. -/
theorem c7_current_is_last_and_mutators_create_snapshot
    (pt : PipelineTimer) (t : ℚ) (stage : String) :
    (pt.current_inference = none ↔ pt.timers = []) ∧
      (∀ l tm, pt.timers = l ++ [tm] → pt.current_inference = some tm) ∧
      (pt.enabled = true → pt.timers = [] →
        pt.reset = PipelineTimer.reset
            { pt with timers := [InferenceTimer.new] } ∧
          pt.start_inference_stage t stage =
            PipelineTimer.start_inference_stage
              { pt with timers := [InferenceTimer.new] } t stage ∧
          pt.stop_inference_stage t stage =
            PipelineTimer.stop_inference_stage
              { pt with timers := [InferenceTimer.new] } t stage) := by
  refine ⟨?_, ?_, ?_⟩
  · simp [PipelineTimer.current_inference, List.getLast?_eq_none_iff]
  · intro l tm h
    simp [PipelineTimer.current_inference, h, List.getLast?_concat]
  · intro he h0
    refine ⟨?_, ?_, ?_⟩
    · simp [PipelineTimer.reset, he, PipelineTimer.check_start_inference,
        PipelineTimer.current_inference, h0]
    · simp [PipelineTimer.start_inference_stage, he,
        PipelineTimer.check_start_inference,
        PipelineTimer.current_inference, h0]
    · simp [PipelineTimer.stop_inference_stage, he,
        PipelineTimer.check_start_inference,
        PipelineTimer.current_inference, h0]

/-- Witness for C7 on a fresh enabled single-inference timer (no snapshot
yet) and on a timer tracking one concrete snapshot. -/
theorem c7_witness :
    ((PipelineTimer.new true false).reset =
        PipelineTimer.reset
          ⟨false, true, [InferenceTimer.new]⟩ ∧
      (PipelineTimer.new true false).start_inference_stage 0 "x" =
        PipelineTimer.start_inference_stage
          ⟨false, true, [InferenceTimer.new]⟩ 0 "x" ∧
      (PipelineTimer.new true false).stop_inference_stage 0 "x" =
        PipelineTimer.stop_inference_stage
          ⟨false, true, [InferenceTimer.new]⟩ 0 "x") ∧
      (⟨false, true, [⟨[("x", [(0 : ℚ)])], [("x", [1])]⟩]⟩ :
          PipelineTimer).current_inference =
        some ⟨[("x", [(0 : ℚ)])], [("x", [1])]⟩ :=
  ⟨(c7_current_is_last_and_mutators_create_snapshot
      (PipelineTimer.new true false) 0 "x").2.2 rfl rfl,
    (c7_current_is_last_and_mutators_create_snapshot
      ⟨false, true, [⟨[("x", [(0 : ℚ)])], [("x", [1])]⟩]⟩ 0 "x").2.1
      [] ⟨[("x", [(0 : ℚ)])], [("x", [1])]⟩ rfl⟩

/-- Witness for C5 in multi-inference mode, on a timer tracking one
snapshot with a recorded sample. -/
theorem c5_witness :
    ((⟨true, true, [⟨[("x", [(0 : ℚ)])], [("x", [1])]⟩]⟩ :
        PipelineTimer).multi_inference = true →
      (⟨true, true, [⟨[("x", [(0 : ℚ)])], [("x", [1])]⟩]⟩ :
        PipelineTimer).timers ≠ [] →
      (⟨true, true, [⟨[("x", [(0 : ℚ)])], [("x", [1])]⟩]⟩ :
          PipelineTimer).reset =
          ⟨true, true, [⟨[("x", [(0 : ℚ)])], [("x", [1])]⟩,
            InferenceTimer.new]⟩ ∧
        (⟨true, true, [⟨[("x", [(0 : ℚ)])], [("x", [1])]⟩]⟩ :
          PipelineTimer).reset.current_inference =
          some InferenceTimer.new) ∧
      ((⟨true, true, [⟨[("x", [(0 : ℚ)])], [("x", [1])]⟩]⟩ :
          PipelineTimer).multi_inference = false →
        ∀ tm, (⟨true, true, [⟨[("x", [(0 : ℚ)])], [("x", [1])]⟩]⟩ :
            PipelineTimer).timers = [tm] →
          (⟨true, true, [⟨[("x", [(0 : ℚ)])], [("x", [1])]⟩]⟩ :
            PipelineTimer).reset =
            ⟨true, true, [InferenceTimer.new]⟩) :=
  c5_reset_appends_or_clears
    ⟨true, true, [⟨[("x", [(0 : ℚ)])], [("x", [1])]⟩]⟩ rfl
